import Mathlib

/-!
Verification of the AST position-assignment module
(beast/observationmodel/ast/make_ast_xy_list.py).

The file shallowly embeds the three routines of the module:

* pick_positions_per_background (lines 13-168)
* pick_positions                (lines 171-259)
* pick_positions_per_density    (lines 261-399)

Machine floats are modelled as exact rationals, except for the
trigonometric offset sampling of pick_positions which is modelled over
the reals.  Randomness is modelled by passing the drawn values (tile
choices and uniform samples in [0,1)) explicitly.  Python exceptions are
modelled with an explicit error type; a statement that a Python function
raises becomes a statement that the embedded function returns an error
value.
-/

/-- Errors the embedded Python code can raise.  The module itself only
contains two RuntimeError raise statements (lines 216 and 219); an
UnboundLocalError arises when a local variable is read before any
assignment to it executed (relevant at line 229 when neither branch of
lines 200-205 ran); numpy reductions such as np.amin raise a ValueError
on an empty array (lines 73-74). -/
inductive PyErr where
  | unboundLocalError : PyErr
  | runtimeNoCoordinateColumns : PyErr
  | runtimeNoReferenceImage : PyErr
  | valueErrorEmptyArray : PyErr
  deriving DecidableEq

/-- Minimum of a nonempty array, as computed by np.amin (line 73 and
line 321).  The empty case is never reached by the embedded callers,
which model the np.amin ValueError separately. -/
def listMin (l : List ℚ) : ℚ :=
  match l with
  | [] => 0
  | x :: xs => xs.foldl min x

/-- Maximum of a nonempty array, as computed by np.amax (line 74 and
line 322). -/
def listMax (l : List ℚ) : ℚ :=
  match l with
  | [] => 0
  | x :: xs => xs.foldl max x

/-- np.linspace(lo, hi, n): n equally spaced points from lo to hi
inclusive, point i being lo + i*(hi-lo)/(n-1).  For n = 1 numpy returns
the single point lo; the embedding agrees because division by zero is
zero and the i = 0 term is lo regardless. -/
def npLinspace (lo hi : ℚ) (n : ℕ) : List ℚ :=
  (List.range n).map fun (i : ℕ) => lo + (i : ℚ) * (hi - lo) / ((n : ℚ) - 1)

/-- np.digitize(x, bins) with the default right=False for monotonically
increasing bins: the index i with bins[i-1] <= x < bins[i], which equals
the number of bin edges that are <= x. -/
def npDigitize (x : ℚ) (bins : List ℚ) : ℕ :=
  bins.countP fun b => decide (b ≤ x)

/-- np.repeat(a, n) for a 1-D array: every element repeated n times in
place (lines 96 and 100, and lines 344 and 348). -/
def npRepeat {α : Type} (l : List α) (n : ℕ) : List α :=
  l.flatMap fun a => List.replicate n a

/-- The background bin boundaries of pick_positions_per_background,
lines 78-79: N_bg_bins + 1 equally spaced boundaries running from
min - 0.01*abs(min) to max + 0.01*abs(max) of the tile values. -/
def bgBins (v : List ℚ) (N : ℕ) : List ℚ :=
  npLinspace (listMin v - 0.01 * |listMin v|) (listMax v + 0.01 * |listMax v|) (N + 1)

/-- Line 85: the bin label np.digitize assigns to each tile of the
background map. -/
def binForEachTile (v : List ℚ) (N : ℕ) : List ℕ :=
  v.map fun x => npDigitize x (bgBins v N)

/-- Lines 88-89: for each bin b in range(N_bg_bins), the (sorted)
indices of the tiles whose label is b + 1. -/
def tilesForEachBin (v : List ℚ) (N : ℕ) : List (List ℕ) :=
  (List.range N).map fun b =>
    (List.range v.length).filter fun i => decide ((binForEachTile v N).getD i 0 = b + 1)

/-- Line 92: the nonempty bins, in increasing bin order. -/
def tileSets (v : List ℚ) (N : ℕ) : List (List ℕ) :=
  (tilesForEachBin v N).filter fun s => decide (s.length ≠ 0)

/-- The density bin boundaries of pick_positions_per_density, lines
326-327; textually the same computation as lines 78-79. -/
def densBins (v : List ℚ) (N : ℕ) : List ℚ :=
  npLinspace (listMin v - 0.01 * |listMin v|) (listMax v + 0.01 * |listMax v|) (N + 1)

/-- Line 333: the bin label of each tile of the density map. -/
def densBinForEachTile (v : List ℚ) (N : ℕ) : List ℕ :=
  v.map fun x => npDigitize x (densBins v N)

/-- Lines 336-337. -/
def densTilesForEachBin (v : List ℚ) (N : ℕ) : List (List ℕ) :=
  (List.range N).map fun b =>
    (List.range v.length).filter fun i => decide ((densBinForEachTile v N).getD i 0 = b + 1)

/-- Line 340. -/
def densTileSets (v : List ℚ) (N : ℕ) : List (List ℕ) :=
  (densTilesForEachBin v N).filter fun s => decide (s.length ≠ 0)

/-- The bin-assignment step of pick_positions_per_background, lines
70-89, as a fallible computation.  The source contains no validation
and no raise statement in this step; the only failure Python can
produce here is the np.amin ValueError on an empty value array. -/
def binAssignStep (v : List ℚ) (N : ℕ) : Except PyErr (List ℕ) :=
  if v.isEmpty then Except.error PyErr.valueErrorEmptyArray
  else Except.ok (binForEachTile v N)

/-- The bin-assignment step of pick_positions_per_density, lines
318-337, identical in structure to lines 70-89. -/
def densBinAssignStep (v : List ℚ) (N : ℕ) : Except PyErr (List ℕ) :=
  if v.isEmpty then Except.error PyErr.valueErrorEmptyArray
  else Except.ok (densBinForEachTile v N)

/-- Lines 96-100 (and 344-348): the replicated star rows of the output
table.  chosen_seds is first np.repeat-ed Nrealize times, and the
result is np.repeat-ed len(tile_sets) times; out_table is built from
exactly these rows (line 102 and line 350), so its row list is this
list. -/
def repeatedSeds {α : Type} (seds : List α) (R K : ℕ) : List α :=
  npRepeat (npRepeat seds R) K

/-- One tile of a background or density map: the bounding box columns
min_ra, max_ra, min_dec, max_dec read on lines 107-110 (and 355-358). -/
structure Tile where
  ra_min : ℚ
  ra_max : ℚ
  dec_min : ℚ
  dec_max : ℚ
  deriving DecidableEq

/-- Lines 130-135 (and 369-374): pick the tile of the current tile set
selected by np.random.choice (modelled by the drawn position c in the
set), then a uniform ra in [ra_min, ra_max] and dec in
[dec_min, dec_max] of that tile, with u1 and u2 the two uniform draws. -/
def drawRaDec (tiles : List Tile) (tileSet : List ℕ) (c : ℕ) (u1 u2 : ℚ) : ℚ × ℚ :=
  let t := tiles.getD (tileSet.getD c 0) ⟨0, 0, 0, 0⟩
  (t.ra_min + u1 * (t.ra_max - t.ra_min), t.dec_min + u2 * (t.dec_max - t.dec_min))

/-- The position-sampling loop of pick_positions_per_background for one
output row, lines 124-145.  The tape holds the successive random draws
(tile choice, u1, u2); none means the tape ran out while the loop was
still running.  With wcs = none the loop body assigns x, y = ra, dec
and executes break (lines 137-139), accepting the first draw
unconditionally; with a wcs the drawn pair is converted and the loop
repeats while x < 0 or y < 0 (lines 128, 140-141). -/
def sampleXYBackground (tiles : List Tile) (tileSet : List ℕ)
    (wcs : Option (ℚ × ℚ → ℚ × ℚ)) : List (ℕ × ℚ × ℚ) → Option (ℚ × ℚ)
  | [] => none
  | d :: rest =>
    let rd := drawRaDec tiles tileSet d.1 d.2.1 d.2.2
    match wcs with
    | none => some rd
    | some f =>
      let xy := f rd
      if xy.1 < 0 ∨ xy.2 < 0 then sampleXYBackground tiles tileSet (some f) rest
      else some xy

/-- The position sampling of pick_positions_per_density for one output
row, lines 366-374: a single draw, accepted with no rejection loop. -/
def sampleRaDecDensity (tiles : List Tile) (tileSet : List ℕ) (c : ℕ) (u1 u2 : ℚ) : ℚ × ℚ :=
  let t := tiles.getD (tileSet.getD c 0) ⟨0, 0, 0, 0⟩
  (t.ra_min + u1 * (t.ra_max - t.ra_min), t.dec_min + u2 * (t.dec_max - t.dec_min))

/-- Column names of the output table assembled by
pick_positions_per_background, lines 148-161: zeros and ones columns,
then the coordinate pair (X, Y when a reference image gave a wcs,
otherwise RA, DEC), inserted from the left ahead of the original
columns. -/
def bgOutColnames (orig : List String) (hasRef : Bool) : List String :=
  "zeros" :: "ones" :: ((if hasRef then ["X", "Y"] else ["RA", "DEC"]) ++ orig)

/-- Column names of the output table assembled by
pick_positions_per_density, lines 376-392; same layout as lines
148-161. -/
def densOutColnames (orig : List String) (hasRef : Bool) : List String :=
  "zeros" :: "ones" :: ((if hasRef then ["X", "Y"] else ["RA", "DEC"]) ++ orig)

/-- Python truthiness of a string literal: nonempty strings are truthy.
Needed because line 199 reads if 'X' or 'x' in colnames, which Python
parses as (truthiness of 'X') or ('x' in colnames). -/
def pyTruthy (s : String) : Bool := decide (s ≠ "")

/-- Lines 200-205 as explicit sequential assignment: x_positions and
y_positions start unassigned; the 'X' branch assigns the uppercase
columns, then the 'x' branch (a second independent if, not an elif)
overwrites with the lowercase columns when present. -/
def resolveXY (colnames : List String) (cat : String → List ℚ) :
    Option (List ℚ × List ℚ) :=
  let p0 : Option (List ℚ × List ℚ) := none
  let p1 := if "X" ∈ colnames then some (cat ("X"), cat ("Y")) else p0
  if "x" ∈ colnames then some (cat ("x"), cat ("y")) else p1

/-- Lines 209-214, same sequential-assignment pattern for RA, DEC. -/
def resolveRaDec (colnames : List String) (cat : String → List ℚ) :
    Option (List ℚ × List ℚ) :=
  let p0 : Option (List ℚ × List ℚ) := none
  let p1 := if "RA" ∈ colnames then some (cat ("RA"), cat ("DEC")) else p0
  if "ra" ∈ colnames then some (cat ("ra"), cat ("dec")) else p1

/-- The coordinate-resolution prologue of pick_positions, lines
197-221.  The outer condition on line 199 is the literal Python
expression 'X' or 'x' in colnames; when it is taken but neither X nor x
is a column, x_positions is read unassigned at line 229, an
UnboundLocalError.  The else branch raises a RuntimeError when no
reference image was supplied (line 219), and one for missing RA, DEC
columns (line 216); with a reference image the resolved sky pair is
converted through the wcs (lines 220-221). -/
def pickPositionsResolve (colnames : List String) (cat : String → List ℚ)
    (refimage : Option (List ℚ × List ℚ → List ℚ × List ℚ)) :
    Except PyErr (List ℚ × List ℚ) :=
  if pyTruthy ("X") || decide ("x" ∈ colnames) then
    match resolveXY colnames cat with
    | some p => Except.ok p
    | none => Except.error PyErr.unboundLocalError
  else
    match refimage with
    | none => Except.error PyErr.runtimeNoReferenceImage
    | some wcs =>
      if pyTruthy ("RA") || decide ("ra" ∈ colnames) then
        match resolveRaDec colnames cat with
        | some p => Except.ok (wcs p)
        | none => Except.error PyErr.unboundLocalError
      else Except.error PyErr.runtimeNoCoordinateColumns

/-- Line 194: noise = 3.0, the annulus width of pick_positions, as a
rational for the boundary-filter computation. -/
def ppNoiseQ : ℚ := 3

/-- Lines 229-230: the boundary-filter mask of pick_positions.  Entry i
is true exactly when both coordinates of catalog star i lie strictly
inside the margin separation + noise of the extent of the full catalog
coordinates themselves. -/
def keepMask (sep : ℚ) (xs ys : List ℚ) : List Bool :=
  List.zipWith (fun x y =>
    (decide (listMin xs + sep + ppNoiseQ < x) && decide (x < listMax xs - sep - ppNoiseQ)) &&
    (decide (listMin ys + sep + ppNoiseQ < y) && decide (y < listMax ys - sep - ppNoiseQ)))
    xs ys

/-- Line 194 again, as a real number for the trigonometric offset
computation. -/
noncomputable def ppNoiseR : ℝ := 3

/-- Line 242: the per-row radius separation + U(0,1)*noise, with u the
uniform draw. -/
noncomputable def astRadius (sep u : ℝ) : ℝ := u * ppNoiseR + sep

/-- Line 243: theta = U(0,1) * 2 * pi. -/
noncomputable def astTheta (ut : ℝ) : ℝ := ut * 2 * Real.pi

/-- Lines 244-247: the output position of one AST row, anchor position
plus the polar offset (r*cos theta, r*sin theta). -/
noncomputable def astPosition (ax ay sep u ut : ℝ) : ℝ × ℝ :=
  (ax + astRadius sep u * Real.cos (astTheta ut),
   ay + astRadius sep u * Real.sin (astTheta ut))

/-! Helper lemmas. -/

theorem foldl_min_le_init (l : List ℚ) : ∀ a : ℚ, l.foldl min a ≤ a := by
  induction l with
  | nil => intro a; exact le_refl a
  | cons b l ih =>
    intro a
    exact le_trans (ih (min a b)) (min_le_left a b)

theorem foldl_min_le_mem (l : List ℚ) : ∀ (a y : ℚ), y ∈ l → l.foldl min a ≤ y := by
  induction l with
  | nil => intro a y h; cases h
  | cons b l ih =>
    intro a y h
    rcases List.mem_cons.mp h with rfl | h2
    · exact le_trans (foldl_min_le_init l (min a y)) (min_le_right a y)
    · exact ih (min a b) y h2

theorem listMin_le_of_mem {l : List ℚ} {x : ℚ} (h : x ∈ l) : listMin l ≤ x := by
  cases l with
  | nil => cases h
  | cons a l =>
    rcases List.mem_cons.mp h with rfl | h2
    · exact foldl_min_le_init l x
    · exact foldl_min_le_mem l a x h2

theorem init_le_foldl_max (l : List ℚ) : ∀ a : ℚ, a ≤ l.foldl max a := by
  induction l with
  | nil => intro a; exact le_refl a
  | cons b l ih =>
    intro a
    exact le_trans (le_max_left a b) (ih (max a b))

theorem mem_le_foldl_max (l : List ℚ) : ∀ (a y : ℚ), y ∈ l → y ≤ l.foldl max a := by
  induction l with
  | nil => intro a y h; cases h
  | cons b l ih =>
    intro a y h
    rcases List.mem_cons.mp h with rfl | h2
    · exact le_trans (le_max_right a y) (init_le_foldl_max l (max a y))
    · exact ih (max a b) y h2

theorem le_listMax_of_mem {l : List ℚ} {x : ℚ} (h : x ∈ l) : x ≤ listMax l := by
  cases l with
  | nil => cases h
  | cons a l =>
    rcases List.mem_cons.mp h with rfl | h2
    · exact init_le_foldl_max l x
    · exact mem_le_foldl_max l a x h2

theorem countP_lt_length_of_fails {α : Type} {p : α → Bool} {a : α} :
    ∀ {l : List α}, a ∈ l → p a = false → l.countP p < l.length := by
  intro l
  induction l with
  | nil => intro h; cases h
  | cons b l ih =>
    intro hmem hpa
    rcases List.mem_cons.mp hmem with rfl | h2
    · rw [List.countP_cons, List.length_cons, if_neg (by simp [hpa])]
      have hle : l.countP p ≤ l.length := by apply List.countP_le_length
      omega
    · rw [List.countP_cons, List.length_cons]
      have hlt := ih h2 hpa
      by_cases hb : p b = true
      · rw [if_pos hb]; omega
      · rw [if_neg hb]; omega

theorem npLinspace_length (lo hi : ℚ) (n : ℕ) : (npLinspace lo hi n).length = n := by
  unfold npLinspace
  rw [List.length_map, List.length_range]

theorem left_mem_npLinspace (lo hi : ℚ) (N : ℕ) : lo ∈ npLinspace lo hi (N + 1) := by
  unfold npLinspace
  refine List.mem_map.mpr ⟨0, List.mem_range.mpr (Nat.succ_pos N), ?_⟩
  simp

theorem right_mem_npLinspace (lo hi : ℚ) (N : ℕ) (hN : 1 ≤ N) :
    hi ∈ npLinspace lo hi (N + 1) := by
  unfold npLinspace
  refine List.mem_map.mpr ⟨N, List.mem_range.mpr (Nat.lt_succ_self N), ?_⟩
  have hN0 : ((N : ℚ)) ≠ 0 := Nat.cast_ne_zero.mpr (by omega)
  push_cast
  have h1 : ((N : ℚ) + 1 - 1) = (N : ℚ) := by ring
  rw [h1, mul_div_cancel_left₀ _ hN0]
  ring

theorem npDigitize_padded_bounds (x lo hi : ℚ) (N : ℕ) (hN : 1 ≤ N)
    (hlo : lo ≤ x) (hhi : x < hi) :
    1 ≤ npDigitize x (npLinspace lo hi (N + 1)) ∧
    npDigitize x (npLinspace lo hi (N + 1)) ≤ N := by
  constructor
  · have h1 : 0 < (npLinspace lo hi (N + 1)).countP (fun b => decide (b ≤ x)) :=
      List.countP_pos_iff.mpr ⟨lo, left_mem_npLinspace lo hi N, by simpa using hlo⟩
    simpa [npDigitize] using h1
  · have h2 : (npLinspace lo hi (N + 1)).countP (fun b => decide (b ≤ x))
        < (npLinspace lo hi (N + 1)).length :=
      countP_lt_length_of_fails (right_mem_npLinspace lo hi N hN)
        (by simp [not_le.mpr hhi])
    have h3 := npLinspace_length lo hi (N + 1)
    unfold npDigitize
    omega

theorem npRepeat_length {α : Type} (l : List α) (n : ℕ) :
    (npRepeat l n).length = l.length * n := by
  induction l with
  | nil => simp [npRepeat]
  | cons a l ih =>
    show (List.replicate n a ++ npRepeat l n).length = (l.length + 1) * n
    rw [List.length_append, List.length_replicate, ih]
    ring

theorem zipWith_getD_eq (f : ℚ → ℚ → Bool) (xs : List ℚ) :
    ∀ (ys : List ℚ) (i : ℕ), i < xs.length → i < ys.length →
      (List.zipWith f xs ys).getD i false = f (xs.getD i 0) (ys.getD i 0) := by
  induction xs with
  | nil => intro ys i hx hy; exact absurd hx (by simp)
  | cons x xs ih =>
    intro ys i hx hy
    cases ys with
    | nil => exact absurd hy (by simp)
    | cons y ys =>
      cases i with
      | zero => rfl
      | succ j =>
        have hx2 : j < xs.length := by
          rw [List.length_cons] at hx
          omega
        have hy2 : j < ys.length := by
          rw [List.length_cons] at hy
          omega
        exact ih ys j hx2 hy2

/-! Claim theorems. -/

/-- Claim C2 (code bug): the two precondition failures the spec
describes never happen in the code.  Because line 199 reads
if 'X' or 'x' in colnames, and the string literal 'X' is truthy, the
branch that would raise the missing-coordinates and
missing-reference-image errors is unreachable; a catalog without X or x
columns instead crashes with an UnboundLocalError when x_positions is
first used (line 229).  Evaluated here on a sky-only catalog without
and with a reference image, and on a catalog with no coordinate columns
at all. -/
theorem pickPositions_unboundLocal_on_missing_xy :
    pickPositionsResolve ["RA", "DEC"] (fun _ => ([] : List ℚ)) none
      = Except.error PyErr.unboundLocalError ∧
    pickPositionsResolve ["RA", "DEC"] (fun _ => ([] : List ℚ)) (some (fun p => p))
      = Except.error PyErr.unboundLocalError ∧
    pickPositionsResolve ["MAG1"] (fun _ => ([] : List ℚ)) none
      = Except.error PyErr.unboundLocalError :=
  ⟨rfl, rfl, rfl⟩

/-- Claim C3 (code bug): with M = 2 stars (tagged 10 and 20),
Nrealize = 1 and a two-tile map with values 0 and 10 split into
N_bins = 2 bins (K = 2 surviving bins), the replicated row list is
[10, 10, 20, 20]: np.repeat repeats each row K times in place, so the
rows are grouped by star, not by bin.  The claimed layout (bin 0 rows
first: [10, 20, 10, 20], row b*M*Nrealize + s*Nrealize + r being star
s) does not hold: position 1 holds star 10, not star 20. -/
theorem repeatedSeds_layout_at_failing_input :
    (tileSets [(0:ℚ), 10] 2).length = 2 ∧
    repeatedSeds [10, 20] 1 ((tileSets [(0:ℚ), 10] 2).length) = [10, 10, 20, 20] ∧
    repeatedSeds [10, 20] 1 ((tileSets [(0:ℚ), 10] 2).length) ≠ [10, 20, 10, 20] := by
  have h : tileSets [(0:ℚ), 10] 2 = [[0], [1]] := by
    simp only [tileSets, tilesForEachBin, binForEachTile, bgBins, npLinspace, npDigitize,
      listMin, listMax]
    norm_num [List.range_succ, List.countP_cons, List.countP_nil, List.filter]
  rw [h]
  exact ⟨rfl, rfl, by decide⟩

/-- Claim C4, counterexample: a concrete call of the map-driven
routines (original columns [mag], no reference image) produces the
output columns [zeros, ones, RA, DEC, mag] and no bin_index column,
refuting the claim that each output row carries a bin-index column. -/
theorem outColnames_concrete_no_bin_index :
    bgOutColnames ["mag"] false = ["zeros", "ones", "RA", "DEC", "mag"] ∧
    "bin_index" ∉ bgOutColnames ["mag"] false ∧
    densOutColnames ["mag"] false = ["zeros", "ones", "RA", "DEC", "mag"] ∧
    "bin_index" ∉ densOutColnames ["mag"] false := by
  refine ⟨rfl, ?_, rfl, ?_⟩ <;> decide

/-- Claim C4 (amended): the map-driven routines compute a per-row
bin_indices array (lines 105 and 120-123, lines 353 and 363-365) but
never attach it to the output table; the returned table has exactly the
columns zeros, ones and the two coordinate columns ahead of the
original columns, and contains no bin_index column whenever the
original columns do not. -/
theorem outColnames_no_bin_index (orig : List String) (hasRef : Bool)
    (h : "bin_index" ∉ orig) :
    "bin_index" ∉ bgOutColnames orig hasRef ∧
    "bin_index" ∉ densOutColnames orig hasRef ∧
    (bgOutColnames orig hasRef).length = orig.length + 4 ∧
    (densOutColnames orig hasRef).length = orig.length + 4 := by
  refine ⟨?_, ?_, ?_, ?_⟩
  · intro hmem
    cases hasRef <;> simp +decide [bgOutColnames, List.mem_cons, List.mem_append] at hmem <;>
      exact h hmem
  · intro hmem
    cases hasRef <;> simp +decide [densOutColnames, List.mem_cons, List.mem_append] at hmem <;>
      exact h hmem
  · cases hasRef <;> simp [bgOutColnames]
  · cases hasRef <;> simp [densOutColnames]

/-- Claim C4, witness for the amended theorem at a concrete input. -/
theorem outColnames_no_bin_index_witness :
    "bin_index" ∉ bgOutColnames ["F475W"] true ∧
    "bin_index" ∉ densOutColnames ["F475W"] true ∧
    (bgOutColnames ["F475W"] true).length = (["F475W"] : List String).length + 4 ∧
    (densOutColnames ["F475W"] true).length = (["F475W"] : List String).length + 4 :=
  outColnames_no_bin_index ["F475W"] true (by decide)

/-- Claim C5, counterexample: no InvalidRangeError exists in the code
and the bin-assignment step performs no validation.  With the
degenerate value array [5, 5] (min equals max) and N_bins = 2 both
routines return normally, every tile in bin 2; with N_bins = 0 (less
than 1) the step also returns normally. -/
theorem binAssignStep_ok_on_degenerate :
    binAssignStep [(5:ℚ), 5] 2 = Except.ok [2, 2] ∧
    densBinAssignStep [(5:ℚ), 5] 2 = Except.ok [2, 2] ∧
    binAssignStep [(1:ℚ), 2] 0 = Except.ok [1, 1] := by
  refine ⟨?_, ?_, ?_⟩
  · simp only [binAssignStep, binForEachTile, bgBins, npLinspace, npDigitize, listMin, listMax]
    norm_num [List.range_succ, List.countP_cons, List.countP_nil]
  · simp only [densBinAssignStep, densBinForEachTile, densBins, npLinspace, npDigitize,
      listMin, listMax]
    norm_num [List.range_succ, List.countP_cons, List.countP_nil]
  · simp only [binAssignStep, binForEachTile, bgBins, npLinspace, npDigitize, listMin, listMax]
    norm_num [List.range_succ, List.countP_cons, List.countP_nil]

/-- Claim C5 (amended): the bin-assignment step of both map-driven
routines raises nothing on a degenerate metric range or a
non-positive bin count: for every nonempty value array with
min(v) = max(v) or N_bins < 1 it returns its labels normally (the only
error the step can produce at all is the numpy empty-array reduction
error, which needs an empty map). -/
theorem binAssignStep_no_error (v : List ℚ) (N : ℕ) (hv : v ≠ [])
    (_hdeg : listMin v = listMax v ∨ N < 1) :
    binAssignStep v N = Except.ok (binForEachTile v N) ∧
    densBinAssignStep v N = Except.ok (densBinForEachTile v N) := by
  have hne : v.isEmpty = false := by
    cases v with
    | nil => exact absurd rfl hv
    | cons a l => rfl
  constructor
  · simp [binAssignStep, hne]
  · simp [densBinAssignStep, hne]

/-- Claim C5, witness for the amended theorem at the degenerate array
[5, 5] with N_bins = 2. -/
theorem binAssignStep_no_error_witness :
    binAssignStep [(5:ℚ), 5] 2 = Except.ok (binForEachTile [(5:ℚ), 5] 2) ∧
    densBinAssignStep [(5:ℚ), 5] 2 = Except.ok (densBinForEachTile [(5:ℚ), 5] 2) :=
  binAssignStep_no_error [5, 5] 2 (by decide) (Or.inl (by norm_num [listMin, listMax]))

/-- Claim C7: for every input star list, every Nrealize and every map,
the replicated output row list of each map-driven routine has exactly
M * Nrealize * K rows, where M is the input row count and K the number
of surviving bins of that map (the out_table of lines 102 and 350 is
built from exactly these rows, and the later column insertions do not
change the row count). -/
theorem outTable_row_count {α : Type} (seds : List α) (R : ℕ) (v : List ℚ) (N : ℕ) :
    (repeatedSeds seds R ((tileSets v N).length)).length
      = seds.length * R * (tileSets v N).length ∧
    (repeatedSeds seds R ((densTileSets v N).length)).length
      = seds.length * R * (densTileSets v N).length := by
  constructor <;>
    · unfold repeatedSeds
      rw [npRepeat_length, npRepeat_length]

/-- Claim C1, counterexample: for the metric array [-1, 0]
(min = -1 < max = 0) and N_bins = 1, the padding of the upper boundary
is 0.01 * abs(0) = 0, so the tile with the maximum value 0 satisfies
x >= hi and np.digitize labels it N_bins + 1 = 2; the claimed invariant
that every label lies in [1, N_bins] fails, in both routines. -/
theorem binLabel_overflow_when_max_zero :
    listMin [-1, 0] < listMax [-1, 0] ∧
    binForEachTile [-1, 0] 1 = [1, 2] ∧
    densBinForEachTile [-1, 0] 1 = [1, 2] ∧
    ¬ ∀ b ∈ binForEachTile [-1, 0] 1, b ≤ 1 := by
  have h1 : binForEachTile [-1, 0] 1 = [1, 2] := by
    simp only [binForEachTile, bgBins, npLinspace, npDigitize, listMin, listMax]
    norm_num [List.range_succ, List.countP_cons, List.countP_nil]
  have h2 : densBinForEachTile [-1, 0] 1 = [1, 2] := by
    simp only [densBinForEachTile, densBins, npLinspace, npDigitize, listMin, listMax]
    norm_num [List.range_succ, List.countP_cons, List.countP_nil]
  refine ⟨by norm_num [listMin, listMax], h1, h2, ?_⟩
  intro hall
  have := hall 2 (by rw [h1]; simp)
  omega

/-- Claim C1 (amended): for every metric array v with
min(v) < max(v), every N_bins >= 1 and additionally max(v) different
from 0 (so that the upper padding 0.01 * abs(max) is positive), the
digitize step of both map-driven routines gives every tile exactly one
bin label, and every label lies in [1, N_bins]; labels 0 and
N_bins + 1 never occur. -/
theorem binLabels_in_unit_range (v : List ℚ) (N : ℕ) (hN : 1 ≤ N)
    (_hlt : listMin v < listMax v) (hmax : listMax v ≠ 0) :
    (binForEachTile v N).length = v.length ∧
    (densBinForEachTile v N).length = v.length ∧
    (∀ b ∈ binForEachTile v N, 1 ≤ b ∧ b ≤ N) ∧
    (∀ b ∈ densBinForEachTile v N, 1 ≤ b ∧ b ≤ N) := by
  have key : ∀ x ∈ v, 1 ≤ npDigitize x (bgBins v N) ∧ npDigitize x (bgBins v N) ≤ N := by
    intro x hx
    have hlo : listMin v - 0.01 * |listMin v| ≤ x := by
      have ha := listMin_le_of_mem hx
      have hb : (0:ℚ) ≤ 0.01 * |listMin v| := by positivity
      linarith
    have hhi : x < listMax v + 0.01 * |listMax v| := by
      have ha := le_listMax_of_mem hx
      have hb : (0:ℚ) < 0.01 * |listMax v| :=
        mul_pos (by norm_num) (abs_pos.mpr hmax)
      linarith
    exact npDigitize_padded_bounds x (listMin v - 0.01 * |listMin v|)
      (listMax v + 0.01 * |listMax v|) N hN hlo hhi
  have hdd : densBins v N = bgBins v N := rfl
  refine ⟨?_, ?_, ?_, ?_⟩
  · unfold binForEachTile
    rw [List.length_map]
  · unfold densBinForEachTile
    rw [List.length_map]
  · intro b hb
    obtain ⟨x, hx, rfl⟩ := List.mem_map.mp hb
    exact key x hx
  · intro b hb
    obtain ⟨x, hx, rfl⟩ := List.mem_map.mp hb
    unfold densBinForEachTile at *
    rw [hdd]
    exact key x hx

/-- Claim C1, witness for the amended theorem at the metric array
[1, 2] with N_bins = 1. -/
theorem binLabels_in_unit_range_witness :
    (binForEachTile [(1:ℚ), 2] 1).length = ([(1:ℚ), 2]).length ∧
    (densBinForEachTile [(1:ℚ), 2] 1).length = ([(1:ℚ), 2]).length ∧
    (∀ b ∈ binForEachTile [(1:ℚ), 2] 1, 1 ≤ b ∧ b ≤ 1) ∧
    (∀ b ∈ densBinForEachTile [(1:ℚ), 2] 1, 1 ≤ b ∧ b ≤ 1) :=
  binLabels_in_unit_range [1, 2] 1 (by norm_num)
    (by norm_num [listMin, listMax]) (by norm_num [listMax])

/-- Claim C6, counterexample: with no reference image (wcs is None) the
rejection loop of pick_positions_per_background executes break after
the first draw (line 139), so a tile lying at declination -10 produces
the output pair (0, -10) whose second component is negative; the claim
that every output pair of the background routine has both components
non-negative fails. -/
theorem background_accepts_negative_without_refimage :
    sampleXYBackground [⟨0, 1, -10, -10⟩] [0] none [(0, 0, 0)] = some (0, -10) ∧
    ¬ (0 ≤ (-10 : ℚ)) := by
  constructor
  · simp only [sampleXYBackground, drawRaDec]
    norm_num
  · norm_num

/-- Claim C6 (amended): in the background-driven routine the rejection
loop applies only when a pixel reference frame is supplied: with a wcs
every pair the loop emits has both components non-negative, while
without a wcs the first draw is returned unconditionally (the loop
breaks), whatever its sign; the density-driven routine accepts the
single draw in all cases. -/
theorem background_rejection_only_with_refimage :
    (∀ (tiles : List Tile) (tileSet : List ℕ) (f : ℚ × ℚ → ℚ × ℚ)
        (tape : List (ℕ × ℚ × ℚ)) (p : ℚ × ℚ),
        sampleXYBackground tiles tileSet (some f) tape = some p →
          0 ≤ p.1 ∧ 0 ≤ p.2) ∧
    (∀ (tiles : List Tile) (tileSet : List ℕ) (d : ℕ × ℚ × ℚ)
        (rest : List (ℕ × ℚ × ℚ)),
        sampleXYBackground tiles tileSet none (d :: rest)
          = some (drawRaDec tiles tileSet d.1 d.2.1 d.2.2)) ∧
    (∀ (tiles : List Tile) (tileSet : List ℕ) (c : ℕ) (u1 u2 : ℚ),
        sampleRaDecDensity tiles tileSet c u1 u2 = drawRaDec tiles tileSet c u1 u2) := by
  refine ⟨?_, ?_, ?_⟩
  · intro tiles tileSet f tape
    induction tape with
    | nil => intro p h; simp [sampleXYBackground] at h
    | cons d rest ih =>
      intro p h
      simp only [sampleXYBackground] at h
      split at h
      · exact ih p h
      · next hcond =>
        push_neg at hcond
        have hp := Option.some.inj h
        subst hp
        exact hcond
  · intro tiles tileSet d rest
    rfl
  · intro tiles tileSet c u1 u2
    rfl

/-- Claim C6, witness: the wcs branch of the amended theorem applied to
a one-tile map with the identity conversion and a draw that lands at
the origin. -/
theorem background_rejection_witness :
    sampleXYBackground [⟨0, 1, 0, 1⟩] [0] (some (fun q => q)) [(0, 0, 0)] = some (0, 0) ∧
    (0 ≤ ((0, 0) : ℚ × ℚ).1 ∧ 0 ≤ ((0, 0) : ℚ × ℚ).2) := by
  have h1 : sampleXYBackground [⟨0, 1, 0, 1⟩] [0] (some (fun q => q)) [(0, 0, 0)]
      = some (0, 0) := by
    simp only [sampleXYBackground, drawRaDec]
    norm_num
  exact ⟨h1, background_rejection_only_with_refimage.1 _ _ _ _ _ h1⟩

/-- Claim C8: every AST position of pick_positions is its anchor plus
the polar offset of lines 242-247, so its Euclidean distance to the
anchor equals the drawn radius separation + U(0,1)*noise exactly, and
that radius lies in [separation, separation + noise); in particular
for separation = 5 and noise = 3 the distance lies in [5, 8). -/
theorem astPosition_dist_in_annulus (ax ay sep u ut : ℝ)
    (hu0 : 0 ≤ u) (hu1 : u < 1) (hsep : 0 ≤ sep) :
    Real.sqrt (((astPosition ax ay sep u ut).1 - ax) ^ 2 +
        ((astPosition ax ay sep u ut).2 - ay) ^ 2)
      = astRadius sep u ∧
    sep ≤ astRadius sep u ∧
    astRadius sep u < sep + ppNoiseR := by
  have hr : 0 ≤ astRadius sep u := by
    unfold astRadius ppNoiseR
    nlinarith
  refine ⟨?_, ?_, ?_⟩
  · have hcs := Real.cos_sq_add_sin_sq (astTheta ut)
    have h1 : ((astPosition ax ay sep u ut).1 - ax) ^ 2 +
        ((astPosition ax ay sep u ut).2 - ay) ^ 2 = astRadius sep u ^ 2 := by
      simp only [astPosition]
      linear_combination (astRadius sep u ^ 2) * hcs
    rw [h1, Real.sqrt_sq hr]
  · unfold astRadius ppNoiseR
    nlinarith
  · unfold astRadius ppNoiseR
    nlinarith

/-- Claim C8, witness at anchor (0, 0), separation 5 and the uniform
draws u = 0, theta-draw = 0. -/
theorem astPosition_dist_witness :
    Real.sqrt (((astPosition 0 0 5 0 0).1 - 0) ^ 2 + ((astPosition 0 0 5 0 0).2 - 0) ^ 2)
      = astRadius 5 0 ∧
    (5:ℝ) ≤ astRadius 5 0 ∧
    astRadius 5 0 < 5 + ppNoiseR :=
  astPosition_dist_in_annulus 0 0 5 0 0 (by norm_num) (by norm_num) (by norm_num)

/-- Claim C9: entry i of the boundary-filter mask of pick_positions is
true exactly when both coordinates of star i lie strictly between
min + separation + noise and max - separation - noise of the catalog
coordinates themselves; consequently a star whose X equals the catalog
minimum X is excluded whenever the separation is non-negative. -/
theorem keep_characterization (sep : ℚ) (xs ys : List ℚ) (i : ℕ)
    (hx : i < xs.length) (hy : i < ys.length) :
    ((keepMask sep xs ys).getD i false = true ↔
      (listMin xs + sep + ppNoiseQ < xs.getD i 0 ∧
       xs.getD i 0 < listMax xs - sep - ppNoiseQ ∧
       listMin ys + sep + ppNoiseQ < ys.getD i 0 ∧
       ys.getD i 0 < listMax ys - sep - ppNoiseQ)) ∧
    (0 ≤ sep → xs.getD i 0 = listMin xs →
      (keepMask sep xs ys).getD i false = false) := by
  have hmask : (keepMask sep xs ys).getD i false =
      ((decide (listMin xs + sep + ppNoiseQ < xs.getD i 0) &&
        decide (xs.getD i 0 < listMax xs - sep - ppNoiseQ)) &&
       (decide (listMin ys + sep + ppNoiseQ < ys.getD i 0) &&
        decide (ys.getD i 0 < listMax ys - sep - ppNoiseQ))) :=
    zipWith_getD_eq _ xs ys i hx hy
  constructor
  · rw [hmask]
    simp [and_assoc]
  · intro hsep hmin
    rw [hmask]
    have hnot : ¬ (listMin xs + sep + ppNoiseQ < xs.getD i 0) := by
      rw [hmin]
      simp only [ppNoiseQ]
      intro hlt
      linarith
    rw [decide_eq_false hnot, Bool.false_and, Bool.false_and]

/-- Claim C9, witness at separation 1 and the catalog
X = Y = [0, 10, 20], index 0: the star at the minimum X is excluded. -/
theorem keep_characterization_witness :
    ((keepMask 1 [(0:ℚ), 10, 20] [(0:ℚ), 10, 20]).getD 0 false = true ↔
      (listMin [(0:ℚ), 10, 20] + 1 + ppNoiseQ < List.getD [(0:ℚ), 10, 20] 0 0 ∧
       List.getD [(0:ℚ), 10, 20] 0 0 < listMax [(0:ℚ), 10, 20] - 1 - ppNoiseQ ∧
       listMin [(0:ℚ), 10, 20] + 1 + ppNoiseQ < List.getD [(0:ℚ), 10, 20] 0 0 ∧
       List.getD [(0:ℚ), 10, 20] 0 0 < listMax [(0:ℚ), 10, 20] - 1 - ppNoiseQ)) ∧
    (0 ≤ (1:ℚ) → List.getD [(0:ℚ), 10, 20] 0 0 = listMin [(0:ℚ), 10, 20] →
      (keepMask 1 [(0:ℚ), 10, 20] [(0:ℚ), 10, 20]).getD 0 false = false) :=
  keep_characterization 1 [0, 10, 20] [0, 10, 20] 0 (by norm_num) (by norm_num)

/-- Claim C10: when the catalog has both the uppercase X, Y and the
lowercase x, y coordinate columns, the second if of lines 203-205
overwrites the assignment of lines 200-202, so the lowercase columns
are the anchor positions actually used. -/
theorem lowercase_overrides_uppercase (colnames : List String)
    (cat : String → List ℚ) (ref : Option (List ℚ × List ℚ → List ℚ × List ℚ))
    (_hX : "X" ∈ colnames) (hx : "x" ∈ colnames) :
    pickPositionsResolve colnames cat ref = Except.ok (cat ("x"), cat ("y")) := by
  have hres : resolveXY colnames cat = some (cat ("x"), cat ("y")) := by
    unfold resolveXY
    rw [if_pos hx]
  have hcond : (pyTruthy ("X") || decide ("x" ∈ colnames)) = true := by
    rw [show pyTruthy ("X") = true from rfl, Bool.true_or]
  unfold pickPositionsResolve
  rw [hcond]
  simp only [if_true]
  rw [hres]

/-- Claim C10, witness on a catalog holding all four column
spellings. -/
theorem lowercase_overrides_uppercase_witness :
    pickPositionsResolve ["X", "Y", "x", "y"] (fun _ => ([] : List ℚ)) none
      = Except.ok (([] : List ℚ), ([] : List ℚ)) :=
  lowercase_overrides_uppercase ["X", "Y", "x", "y"] (fun _ => ([] : List ℚ)) none
    (by decide) (by decide)
